import Mathlib

/-!
Verification of the typewheel component library (a tree-structured rich-text
data model with style inheritance, traversal iterators, and codecs).

The Lean definitions below are a shallow embedding of the Rust source:
  * `src/style.rs`    — `Style` (a record of optional fields), `TextColor`,
    `Style::merge`, `Style::is_blank`, and the `hex_serde` color codec;
  * `src/component.rs` — `Component` (content + style + extra children),
    its factory functions, and `Component::flattened`;
  * `src/content.rs`  — `Content` and its `Display` implementation;
  * `src/iter/tree.rs` and `src/iter/visit.rs` — the flat iterator (depth- or
    breadth-first, optional translation arguments) and the push/pop visiting
    iterator, embedded as explicit step functions on a queue state;
  * `src/codec/legacy.rs` — the legacy control-code encoder and decoder;
  * `src/codec/plain.rs` — the plain-text codec;
  * `src/serial.rs`   — the structured (JSON-like) serial form, embedded at
    the level of the `SerialVessel`/`DeserializeVessel` shape: a value is
    either a bare string or an object carrying the style record, a content
    payload (with recursively encoded translation arguments), and the list of
    recursively encoded children.  Encoding is fallible, as in the source:
    an out-of-range hex color fails (also recursively inside hover-event
    components), and a translation's `with` field is omitted when the
    argument vector is empty — a form the deserializer then rejects, since
    `with` carries no serde default.

Rust machine integers are modeled as `Nat`/`Int` (`u32` bounds are written as
explicit `< 2 ^ 32` checks where the source checks for overflow), `Option` as
`Option`, and fallible serde code as `Except String`.  Namespaced keys, UUIDs
and NBT tags are out of the core (spec §1) and are carried as opaque strings.
-/

set_option linter.unusedVariables false

/-- Models `TextColor` from `src/style.rs`: the 16 named colors plus an
arbitrary RGB value (`Hex(u32)`, the `u32` modeled as a `Nat`).  The type
itself does not bound the value, as in the source; serialization enforces
the 24-bit bound through `hex_serde` (every value above `0xFFFFFF` — in
particular anything not representable in a `u32` — fails to encode). -/
inductive TextColor where
  | black
  | darkBlue
  | darkGreen
  | darkAqua
  | darkRed
  | darkPurple
  | gold
  | gray
  | darkGray
  | blue
  | green
  | aqua
  | red
  | lightPurple
  | yellow
  | white
  | hex (value : Nat)
  deriving Repr, DecidableEq

/-- Models `TextColor::color_code` (`src/style.rs`): the single legacy code
character of a named color; `Hex` has none and yields `'\0'`. -/
def TextColor.color_code : TextColor → Char
  | .black => '0'
  | .darkBlue => '1'
  | .darkGreen => '2'
  | .darkAqua => '3'
  | .darkRed => '4'
  | .darkPurple => '5'
  | .gold => '6'
  | .gray => '7'
  | .darkGray => '8'
  | .blue => '9'
  | .green => 'a'
  | .aqua => 'b'
  | .red => 'c'
  | .lightPurple => 'd'
  | .yellow => 'e'
  | .white => 'f'
  | .hex _ => '\x00'

/-- Models `TextColor::from_color_code` (`src/style.rs`). -/
def TextColor.from_color_code (code : Char) : Option TextColor :=
  match code with
  | '0' => some .black
  | '1' => some .darkBlue
  | '2' => some .darkGreen
  | '3' => some .darkAqua
  | '4' => some .darkRed
  | '5' => some .darkPurple
  | '6' => some .gold
  | '7' => some .gray
  | '8' => some .darkGray
  | '9' => some .blue
  | 'a' => some .green
  | 'b' => some .aqua
  | 'c' => some .red
  | 'd' => some .lightPurple
  | 'e' => some .yellow
  | 'f' => some .white
  | _ => none

/-- Models `ClickEvent` from `src/event.rs` (`i32` page as `Int`). -/
inductive ClickEvent where
  | runCommand (command : String)
  | suggestCommand (command : String)
  | changePage (page : Int)
  | copy (text : String)
  deriving Repr, DecidableEq

/-- Models `ItemHover` from `src/event.rs`.  The namespaced `Key` and the
optional sNBT tag are opaque strings here (out of the core per spec §1). -/
structure ItemHover where
  id : String
  count : Int
  tag : Option String
  deriving Repr, DecidableEq

/-- Models `EntityHover` from `src/event.rs`, parametric in the component
type (the `name` field holds a component).  The UUID and the entity-type
`Key` are opaque strings here. -/
structure EntityHoverF (C : Type) where
  id : String
  name : C
  entityType : String
  deriving Repr

/-- Models `HoverEvent` from `src/event.rs`, parametric in the component
type (`ShowText` boxes a component). -/
inductive HoverEventF (C : Type) where
  | showText (text : C)
  | showItem (item : ItemHover)
  | showEntity (entity : EntityHoverF C)
  deriving Repr

/-- Models `Style` from `src/style.rs` (the record generated by the
`style_fields!` macro), parametric in the hover-event type so the component
tree can be tied through it.  Every field is optional and defaults to
unset, exactly as in the source. -/
structure StyleF (H : Type) where
  bold : Option Bool := none
  italic : Option Bool := none
  underlined : Option Bool := none
  strikethrough : Option Bool := none
  obfuscated : Option Bool := none
  font : Option String := none
  color : Option TextColor := none
  insertion : Option String := none
  click_event : Option ClickEvent := none
  hover_event : Option H := none
  deriving Repr

/-- Models `Content` from `src/content.rs`, parametric in the component type
(translation arguments are components). -/
inductive ContentF (C : Type) where
  | text (s : String)
  | keybind (key : String)
  | score (name objective value : String)
  | translation (key : String) (args : List C)
  | empty
  deriving Repr

/-- Models `Component` from `src/component.rs`: content, style, and the
ordered list of `extra` children.  The type is a nested inductive because
translation arguments, hover events and children all hold components. -/
inductive Component where
  | mk (content : ContentF Component) (style : StyleF (HoverEventF Component))
      (extra : List Component)

/-- Content instantiated at the component tree. -/
abbrev Content := ContentF Component

/-- Hover events instantiated at the component tree. -/
abbrev HoverEvent := HoverEventF Component

/-- Styles instantiated at the component tree. -/
abbrev Style := StyleF HoverEvent

/-- Entity hovers instantiated at the component tree. -/
abbrev EntityHover := EntityHoverF Component

/-- Projection of the `content` field of a component. -/
def Component.content : Component → Content
  | .mk c _ _ => c

/-- Projection of the `style` field of a component. -/
def Component.style : Component → Style
  | .mk _ s _ => s

/-- Projection of the `extra` (children) field of a component. -/
def Component.extra : Component → List Component
  | .mk _ _ e => e

/-- Models `Style::BLANK` (`src/style.rs`): every field unset. -/
def StyleF.BLANK : StyleF H := {}

instance : Inhabited (StyleF H) := ⟨.BLANK⟩

/-- Models the per-field behaviour of `Style::merge` (`src/style.rs`):
`if let Some(v) = &src.field { self.field = Some(v.clone()); }`. -/
def merge_field (dst src : Option α) : Option α :=
  match src with
  | some v => some v
  | none => dst

/-- Models `Style::merge` (`src/style.rs`): the `src` overlay overrides every
field it sets; fields it leaves unset keep the base value.  The source
mutates `self` in place; here the merged style is returned. -/
def StyleF.merge (self src : StyleF H) : StyleF H where
  bold := merge_field self.bold src.bold
  italic := merge_field self.italic src.italic
  underlined := merge_field self.underlined src.underlined
  strikethrough := merge_field self.strikethrough src.strikethrough
  obfuscated := merge_field self.obfuscated src.obfuscated
  font := merge_field self.font src.font
  color := merge_field self.color src.color
  insertion := merge_field self.insertion src.insertion
  click_event := merge_field self.click_event src.click_event
  hover_event := merge_field self.hover_event src.hover_event

/-- Models `Style::is_blank` (`src/style.rs`): all fields are `None`. -/
def StyleF.is_blank (s : StyleF H) : Bool :=
  s.bold.isNone && s.italic.isNone && s.underlined.isNone &&
    s.strikethrough.isNone && s.obfuscated.isNone && s.font.isNone &&
    s.color.isNone && s.insertion.isNone && s.click_event.isNone &&
    s.hover_event.isNone

/-- Models the single-field constructor `Style::bold` generated by the
`style_fields!` macro in `src/style.rs`. -/
def Style.of_bold (state : Bool) : Style := { bold := some state }

/-- Models the single-field constructor `Style::italic` (`src/style.rs`). -/
def Style.of_italic (state : Bool) : Style := { italic := some state }

/-- Models the single-field constructor `Style::underlined`
(`src/style.rs`). -/
def Style.of_underlined (state : Bool) : Style := { underlined := some state }

/-- Models the single-field constructor `Style::strikethrough`
(`src/style.rs`). -/
def Style.of_strikethrough (state : Bool) : Style :=
  { strikethrough := some state }

/-- Models the single-field constructor `Style::obfuscated`
(`src/style.rs`). -/
def Style.of_obfuscated (state : Bool) : Style := { obfuscated := some state }

/-- Models the single-field constructor `Style::color` (`src/style.rs`). -/
def Style.of_color (state : TextColor) : Style := { color := some state }

/-- Models `Component::new` (`src/component.rs`). -/
def Component.new (content : Content) : Component := .mk content .BLANK []

/-- Models `Component::create_flat` (`src/component.rs`). -/
def Component.create_flat (content : Content) (style : Style) : Component :=
  .mk content style []

/-- Models `Component::text` (`src/component.rs`). -/
def Component.text (s : String) : Component := .new (.text s)

/-- Models `Component::keybind` (`src/component.rs`). -/
def Component.keybind (key : String) : Component := .new (.keybind key)

/-- Models `Component::score` (`src/component.rs`). -/
def Component.score (name objective value : String) : Component :=
  .new (.score name objective value)

/-- Models `Component::translate` (`src/component.rs`). -/
def Component.translate (key : String) (args : List Component) : Component :=
  .new (.translation key args)

/-- Models `Component::empty` (`src/component.rs`). -/
def Component.empty : Component := .new .empty

/-- Models `Component::append` / `Component::with_extra`
(`src/component.rs`): children are appended at the end of `extra`. -/
def Component.with_extra : Component → List Component → Component
  | .mk content style extra, more => .mk content style (extra ++ more)

/-- Models the builder method `Component::with_bold` generated by the
`style_fields!` macro (`src/style.rs`): sets the style's `bold` field. -/
def Component.with_bold : Component → Bool → Component
  | .mk content style extra, state => .mk content { style with bold := some state } extra

/-- Models the builder method `Component::with_italic` (`src/style.rs`). -/
def Component.with_italic : Component → Bool → Component
  | .mk content style extra, state => .mk content { style with italic := some state } extra

/-- Models the builder method `Component::with_color` (`src/style.rs`). -/
def Component.with_color : Component → TextColor → Component
  | .mk content style extra, state => .mk content { style with color := some state } extra

/-- Models `Component::shallow_text` (`src/component.rs`): the raw string of
a `Text` component, `none` for every other content kind. -/
def Component.shallow_text (c : Component) : Option String :=
  match c.content with
  | .text s => some s
  | _ => none

/-- Models `Vec::swap_remove(0)` (used by `Component::flattened` in
`src/component.rs`): removes the first element and moves the **last**
element into its place.  Returns the removed element and the remaining
vector. -/
def swap_remove_first : List α → Option (α × List α)
  | [] => none
  | x :: xs =>
    match xs with
    | [] => some (x, [])
    | y :: ys => some (x, (y :: ys).getLast (List.cons_ne_nil y ys) :: (y :: ys).dropLast)

/-- Models `Component::flattened` (`src/component.rs`): when the content is
`Empty` and there is at least one child, the first child (taken with
`swap_remove(0)`) donates its content, its style is merged over the root
style, and its own children are appended after the remaining siblings. -/
def Component.flattened : Component → Component
  | .mk .empty style extra =>
    match swap_remove_first extra with
    | none => .mk .empty style extra
    | some (first, remaining) =>
      .mk first.content (style.merge first.style) (remaining ++ first.extra)
  | c => c

mutual

/-- Total node count of a component counting both `extra` children and
translation arguments; used as fuel / termination measure for the queue
based iterators below. -/
def Component.sizeAll : Component → Nat
  | .mk (.translation _ args) _ extra => 1 + sizeAllList args + sizeAllList extra
  | .mk _ _ extra => 1 + sizeAllList extra

/-- Sum of `Component.sizeAll` over a list. -/
def sizeAllList : List Component → Nat
  | [] => 0
  | c :: cs => c.sizeAll + sizeAllList cs

end

/-- Models `IterOrder` from `src/iter/mod.rs`. -/
inductive IterOrder where
  | depthFirst
  | breadthFirst
  deriving Repr, DecidableEq

/-- Models the state of `FlatIterator` (`src/iter/tree.rs`): the pending
`VecDeque` queue, the iteration order, and the include-translation-arguments
flag set by `with_translate_args`. -/
structure FlatIter where
  queue : List Component
  order : IterOrder
  include_translate_args : Bool

/-- Translation arguments of a component's content (`with` list), empty for
every other content kind. -/
def Component.translate_args (c : Component) : List Component :=
  match c.content with
  | .translation _ args => args
  | _ => []

/-- Models `FlatIterator::next` (`src/iter/tree.rs`): pop the queue front;
in breadth-first order push the (optional) translation arguments and then
the children at the back; in depth-first order push the translation
arguments to the front (in reverse) and then the children to the front (in
reverse), so the queue becomes `extra ++ args ++ rest`. -/
def flat_next (it : FlatIter) : Option (Component × FlatIter) :=
  match it.queue with
  | [] => none
  | item :: rest =>
    let args := if it.include_translate_args then item.translate_args else []
    let queue :=
      match it.order with
      | .breadthFirst => rest ++ args ++ item.extra
      | .depthFirst => item.extra ++ args ++ rest
    some (item, { it with queue := queue })

/-- Drives `flat_next` to exhaustion, collecting the visited components.
The fuel argument only bounds the recursion; `sizeAllList` of the queue is
a provably sufficient amount. -/
def flat_run : Nat → FlatIter → List Component
  | 0, _ => []
  | fuel + 1, it =>
    match flat_next it with
    | none => []
    | some (c, it2) => c :: flat_run fuel it2

/-- Models consuming `Component::iter()` (with the given order and
translation-argument flag) into the list of visited components. -/
def Component.iter_list (c : Component) (order : IterOrder)
    (include_translate_args : Bool) : List Component :=
  flat_run c.sizeAll ⟨[c], order, include_translate_args⟩

mutual

/-- Modelled from the spec: the depth-first traversal order stated in
§4.2 — visit the node, then recursively each child left-to-right before any
sibling; when `include_translate_args` is set, the translation arguments
are also traversed (the code places them after the `extra` children). -/
def dfs_spec (include_translate_args : Bool) : Component → List Component
  | .mk (.translation key args) style extra =>
    Component.mk (.translation key args) style extra ::
      (dfs_spec_list include_translate_args extra ++
        if include_translate_args then dfs_spec_list include_translate_args args
        else [])
  | .mk content style extra =>
    Component.mk content style extra :: dfs_spec_list include_translate_args extra

/-- Concatenation of `dfs_spec` over a list of roots. -/
def dfs_spec_list (include_translate_args : Bool) : List Component → List Component
  | [] => []
  | c :: cs =>
    dfs_spec include_translate_args c ++ dfs_spec_list include_translate_args cs

end

/-- Models `Visit` from `src/iter/visit.rs`. -/
inductive VisitOp where
  | push (c : Component)
  | pop (c : Component)

/-- Models the legacy bold code character `BOLD` (`src/codec/legacy.rs`). -/
def BOLD : Char := 'l'

/-- Models the legacy italic code character `ITALIC`
(`src/codec/legacy.rs`). -/
def ITALIC : Char := 'o'

/-- Models the legacy underline code character `UNDERLINED`
(`src/codec/legacy.rs`). -/
def UNDERLINED : Char := 'n'

/-- Models the legacy strikethrough code character `STRIKETHROUGH`
(`src/codec/legacy.rs`). -/
def STRIKETHROUGH : Char := 'm'

/-- Models the legacy obfuscation code character `OBFUSCATED`
(`src/codec/legacy.rs`). -/
def OBFUSCATED : Char := 'k'

/-- Models the legacy reset code character `RESET`
(`src/codec/legacy.rs`). -/
def RESET : Char := 'r'

/-- Models the `RESETTING` style constant (`src/codec/legacy.rs`): every
boolean flag explicitly `false` and the color forced to white. -/
def RESETTING : Style where
  bold := some false
  italic := some false
  underlined := some false
  strikethrough := some false
  obfuscated := some false
  font := none
  color := some .white
  insertion := none
  click_event := none
  hover_event := none

/-- Models `apply_format_styles` (`src/codec/legacy.rs`): appends a
two-character control sequence per `Some(true)` boolean flag, in the fixed
order bold, italic, underlined, strikethrough, obfuscated. -/
def apply_format_styles (S : Char) (target : String) (style : Style) : String :=
  let target := if style.bold = some true
    then target ++ String.singleton S ++ String.singleton BOLD else target
  let target := if style.italic = some true
    then target ++ String.singleton S ++ String.singleton ITALIC else target
  let target := if style.underlined = some true
    then target ++ String.singleton S ++ String.singleton UNDERLINED else target
  let target := if style.strikethrough = some true
    then target ++ String.singleton S ++ String.singleton STRIKETHROUGH else target
  if style.obfuscated = some true
    then target ++ String.singleton S ++ String.singleton OBFUSCATED else target

/-- Models the body of the `Visit::Push` arm of `LegacyCodec::serialize`
(`src/codec/legacy.rs`) for one node, given the style stack already holding
the node's style at its back: computes the merged active style, emits the
color code (re-merging the active style over `to_apply` because a color
code wipes prior formatting), emits the format codes, and appends the
node's shallow text. -/
def legacy_push_out (S : Char) (styles : List Style) (node : Component)
    (out : String) : String :=
  let active_style := styles.foldl (fun acc s => acc.merge s) .BLANK
  let to_apply := node.style
  let (out, to_apply) :=
    match node.style.color with
    | some color =>
      (out ++ String.singleton S ++ String.singleton color.color_code,
        to_apply.merge active_style)
    | none => (out, to_apply)
  let out := apply_format_styles S out to_apply
  match node.shallow_text with
  | some content => out ++ content
  | none => out

/-- Models the serialization loop of `LegacyCodec::serialize`
(`src/codec/legacy.rs`) fused with the visiting iterator of
`src/iter/visit.rs`: the op queue front is popped; a `push node` op queues
`push` ops for the children followed by a `pop node` op (exactly what
`VisitingIterator::next` does), pushes the node's style on the style stack
and emits output via `legacy_push_out`; a `pop` op pops the style stack.
The fuel only bounds recursion; two steps per node are sufficient. -/
def legacy_serialize_aux (S : Char) :
    Nat → List VisitOp → List Style → String → String
  | 0, _, _, out => out
  | _ + 1, [], _, out => out
  | fuel + 1, .push node :: rest, styles, out =>
    let styles := styles ++ [node.style]
    legacy_serialize_aux S fuel
      (node.extra.map .push ++ .pop node :: rest) styles
      (legacy_push_out S styles node out)
  | fuel + 1, .pop _ :: rest, styles, out =>
    legacy_serialize_aux S fuel rest styles.dropLast out

/-- Models `LegacyCodec::serialize` (`src/codec/legacy.rs`) with control
character `S`. -/
def legacy_serialize (S : Char) (component : Component) : String :=
  legacy_serialize_aux S (2 * component.sizeAll) [.push component] [] ""

/-- Models the `filter_map` closure of `LegacyCodec::deserialize`
(`src/codec/legacy.rs`): classify a segment by its leading character into a
style and the remaining text (an empty segment is dropped; an unrecognized
code keeps the whole segment verbatim with a blank style).  The source
slices the remainder as `&segment[1..]`; every recognized code character is
a one-byte char, so that slice is exactly the tail of the char list. -/
def legacy_segment_style (segment : String) : Option (Style × String) :=
  match segment.data with
  | [] => none
  | code :: rest =>
    match TextColor.from_color_code code with
    | some color => some ({ RESETTING with color := some color }, String.mk rest)
    | none =>
      if code = BOLD then some (Style.of_bold true, String.mk rest)
      else if code = ITALIC then some (Style.of_italic true, String.mk rest)
      else if code = UNDERLINED then some (Style.of_underlined true, String.mk rest)
      else if code = STRIKETHROUGH then some (Style.of_strikethrough true, String.mk rest)
      else if code = OBFUSCATED then some (Style.of_obfuscated true, String.mk rest)
      else if code = RESET then some (RESETTING, String.mk rest)
      else some (.BLANK, segment)

/-- Models the `map` step of `LegacyCodec::deserialize`
(`src/codec/legacy.rs`): a classified segment becomes one flat component
(`Empty` content when the remaining text is empty). -/
def legacy_segment_component (segment : String) : Option Component :=
  (legacy_segment_style segment).map fun (style, content) =>
    Component.create_flat
      (if content.isEmpty then .empty else .text content) style

/-- Models `str::split` on a single separator character, as used by
`LegacyCodec::deserialize`: splitting at every occurrence of the separator,
keeping empty pieces (splitting the empty string yields one empty piece). -/
def split_on_char (sep : Char) : List Char → List (List Char)
  | [] => [[]]
  | c :: cs =>
    match split_on_char sep cs with
    | [] => [[]]
    | seg :: rest => if c = sep then [] :: seg :: rest else (c :: seg) :: rest

/-- Models `LegacyCodec::deserialize` (`src/codec/legacy.rs`): prepend a
synthetic reset code, split on the control character, classify each
segment, gather the results as children of a synthetic empty root, and
flatten it. -/
def legacy_deserialize (S : Char) (value : String) : Component :=
  let value := String.singleton S ++ "r" ++ value
  let extra :=
    ((split_on_char S value.data).map String.mk).filterMap legacy_segment_component
  (Component.empty.with_extra extra).flattened

mutual

/-- Models `impl Display for Content` (`src/content.rs`): the shallow
textual representation — `Text` is its string, `Keybind` is `[key]`,
`Score` is its resolved value, `Translation` is `<key:arg1:...>` with each
argument's content rendered shallowly, `Empty` is the empty string. -/
def content_to_string : Content → String
  | .text contents => contents
  | .keybind key => "[" ++ key ++ "]"
  | .score _ _ value => value
  | .translation key args => "<" ++ key ++ content_args_string args ++ ">"
  | .empty => ""

/-- Renders `:` followed by each translation argument's content, as the
loop in `impl Display for Content` does. -/
def content_args_string : List Component → String
  | [] => ""
  | .mk content _ _ :: rest =>
    ":" ++ content_to_string content ++ content_args_string rest

end

/-- Models `PlainTextCodec::serialize` (`src/codec/plain.rs`): walk the
default iterator (depth-first, translation arguments excluded) and append
each node's `shallow_text()` when present — note only `Text` content
contributes. -/
def plain_serialize (component : Component) : String :=
  (component.iter_list .depthFirst false).foldl
    (fun out node =>
      match node.shallow_text with
      | some content => out ++ content
      | none => out)
    ""

/-- Models `PlainTextCodec::deserialize` (`src/codec/plain.rs`). -/
def plain_deserialize (value : String) : Component := Component.text value

mutual

/-- Models the structured serial form of `src/serial.rs`: either a bare
string (the compacted form emitted by `impl Serialize for Component` for a
blank-style childless text component, and accepted by
`DeserializeVessel::PlainText`) or an object carrying the style record, a
content payload and the encoded children (`SerialVessel` /
`DeserializeVessel::Component`).  An omitted `extra` array and an empty one
are identified, because the deserializer defaults `extra` with
`#[serde(default)]`; the `with` field of a translation is **not** so
defaulted, so its presence is tracked with an `Option` in
`SerialContent.translation`. -/
inductive SerialValue where
  | str (s : String)
  | obj (style : Style) (content : SerialContent) (extra : List SerialValue)

/-- Content payload inside a serial object; translation arguments are
recursively encoded components (serde serializes the `with` vector through
`Component`'s own `Serialize`/`Deserialize`).  `args = none` models an
object in which the `with` field is absent — the form the encoder emits
for an empty argument vector (`#[serde(skip_serializing_if =
"Vec::is_empty")]` in `src/content.rs`). -/
inductive SerialContent where
  | text (s : String)
  | keybind (key : String)
  | score (name objective value : String)
  | translation (key : String) (args : Option (List SerialValue))
  | empty

end

/-- Models the fallibility of serializing a style's color field: named
colors always serialize; a `Hex` color goes through `hex_serde::serialize`,
which rejects values above `0xFFFFFF` (`tests/serial.rs` asserts that
serializing `TextColor::Hex(u32::MAX)` errors). -/
def serial_check_color : Option TextColor → Except String Unit
  | some (.hex v) =>
    if v > 0xFFFFFF then .error "hex value cannot exceed 0xFFFFFF" else .ok ()
  | _ => .ok ()

mutual

/-- Models `impl Serialize for Component` (`src/serial.rs`): a component
with no children, a blank style and `Text` content compacts to a bare
string; everything else becomes a `SerialVessel` object whose children (and
translation arguments) are recursively encoded.  Serialization is fallible:
an out-of-range hex color anywhere in the tree — including inside
hover-event components, which serde serializes recursively — is an error,
and a translation's `with` field is omitted (`args = none`) when the
argument vector is empty. -/
def serial_encode : Component → Except String SerialValue
  | .mk (.text s) style [] =>
    if style.is_blank then .ok (.str s)
    else (serial_check_style style).bind fun _ =>
      .ok (SerialValue.obj style (.text s) [])
  | .mk (.text s) style (e :: es) =>
    (serial_check_style style).bind fun _ =>
      (serial_encode_list (e :: es)).map fun extra =>
        SerialValue.obj style (.text s) extra
  | .mk (.keybind key) style extra =>
    (serial_check_style style).bind fun _ =>
      (serial_encode_list extra).map fun encoded =>
        SerialValue.obj style (.keybind key) encoded
  | .mk (.score name objective value) style extra =>
    (serial_check_style style).bind fun _ =>
      (serial_encode_list extra).map fun encoded =>
        SerialValue.obj style (.score name objective value) encoded
  | .mk (.translation key []) style extra =>
    (serial_check_style style).bind fun _ =>
      (serial_encode_list extra).map fun encoded =>
        SerialValue.obj style (.translation key none) encoded
  | .mk (.translation key (a :: more)) style extra =>
    (serial_check_style style).bind fun _ =>
      (serial_encode_list (a :: more)).bind fun args =>
        (serial_encode_list extra).map fun encoded =>
          SerialValue.obj style (.translation key (some args)) encoded
  | .mk .empty style extra =>
    (serial_check_style style).bind fun _ =>
      (serial_encode_list extra).map fun encoded =>
        SerialValue.obj style .empty encoded

/-- Recursive, fallible encoding of a list of components (the `extra`
array and the `with` array). -/
def serial_encode_list : List Component → Except String (List SerialValue)
  | [] => .ok []
  | c :: cs =>
    (serial_encode c).bind fun v =>
      (serial_encode_list cs).map fun vs => v :: vs

/-- Models the fallibility of the derived `Serialize` for `Style`: the
object form carries the style record through, but serializing it can still
fail — on the color bound, or recursively inside a hover event's
components. -/
def serial_check_style : StyleF (HoverEventF Component) → Except String Unit
  | ⟨_, _, _, _, _, _, color, _, _, hover⟩ =>
    (serial_check_color color).bind fun _ => serial_check_hover hover

/-- Models the fallibility of serializing a hover event: `ShowText` and
the entity name of `ShowEntity` hold components that serde serializes with
`Component`'s own (fallible) serializer; `ShowItem` cannot fail. -/
def serial_check_hover : Option (HoverEventF Component) → Except String Unit
  | some (.showText c) => (serial_encode c).map fun _ => ()
  | some (.showEntity ⟨_, name, _⟩) => (serial_encode name).map fun _ => ()
  | _ => .ok ()

end

mutual

/-- Models `DeserializeVessel` and `impl From<DeserializeVessel> for
Component` (`src/serial.rs`): a bare string becomes `Component::text`
(blank style, no children); an object is read back field by field, children
and translation arguments recursively decoded.  Decoding fails on a
translation object whose `with` field is absent: `with` has
`skip_serializing_if` but no `#[serde(default)]`, so the `Translation`
variant rejects the object (and the remaining untagged fallbacks reject it
too). -/
def serial_decode : SerialValue → Except String Component
  | .str s => .ok (Component.text s)
  | .obj style content extra =>
    (serial_decode_content content).bind fun c =>
      (serial_decode_list extra).map fun decoded => Component.mk c style decoded

/-- Decodes a serial content payload; a translation without a `with` field
is a missing-field error (no serde default on `with`). -/
def serial_decode_content : SerialContent → Except String Content
  | .text s => .ok (.text s)
  | .keybind key => .ok (.keybind key)
  | .score name objective value => .ok (.score name objective value)
  | .translation _ none => .error "missing field with"
  | .translation key (some args) =>
    (serial_decode_list args).map fun cs => ContentF.translation key cs
  | .empty => .ok .empty

/-- Recursive, fallible decoding of a list of serial values. -/
def serial_decode_list : List SerialValue → Except String (List Component)
  | [] => .ok []
  | v :: vs =>
    (serial_decode v).bind fun c =>
      (serial_decode_list vs).map fun cs => c :: cs

end

/-- Uppercase hexadecimal digit of a value below 16, as produced by
Rust's `{:06X}` formatting. -/
def hex_digit_upper : Nat → Char
  | 0 => '0'
  | 1 => '1'
  | 2 => '2'
  | 3 => '3'
  | 4 => '4'
  | 5 => '5'
  | 6 => '6'
  | 7 => '7'
  | 8 => '8'
  | 9 => '9'
  | 10 => 'A'
  | 11 => 'B'
  | 12 => 'C'
  | 13 => 'D'
  | 14 => 'E'
  | _ => 'F'

/-- Models the `format!("#{value:06X}")` body for values within the 24-bit
range: six zero-padded uppercase hexadecimal digits. -/
def to_hex_upper_6 (value : Nat) : String :=
  String.mk ([5, 4, 3, 2, 1, 0].map fun k => hex_digit_upper (value / 16 ^ k % 16))

/-- Models `char::to_digit(16)` as used by `u32::from_str_radix`. -/
def hex_digit_value (c : Char) : Option Nat :=
  if '0' ≤ c ∧ c ≤ '9' then some (c.toNat - '0'.toNat)
  else if 'a' ≤ c ∧ c ≤ 'f' then some (c.toNat - 'a'.toNat + 10)
  else if 'A' ≤ c ∧ c ≤ 'F' then some (c.toNat - 'A'.toNat + 10)
  else none

/-- Models the digit-accumulation loop of `u32::from_str_radix` with radix
16: each character must be a hexadecimal digit and every intermediate
accumulator value must fit in a `u32` (checked multiply-add). -/
def from_str_radix_16_loop : List Char → Nat → Except String Nat
  | [], acc => .ok acc
  | c :: cs, acc =>
    match hex_digit_value c with
    | none => .error "invalid digit found in string"
    | some d =>
      if acc * 16 + d < 2 ^ 32 then from_str_radix_16_loop cs (acc * 16 + d)
      else .error "number too large to fit in target type"

/-- Models `u32::from_str_radix(src, 16)`: an empty string is an error, a
lone `+` is an invalid digit, a leading `+` is stripped, and the digits are
accumulated by `from_str_radix_16_loop` (a `-` sign is not accepted for an
unsigned target and falls through as an invalid digit). -/
def from_str_radix_16 (src : String) : Except String Nat :=
  match src.data with
  | [] => .error "cannot parse integer from empty string"
  | c :: rest =>
    if c = '+' then
      match rest with
      | [] => .error "invalid digit found in string"
      | ds => from_str_radix_16_loop ds 0
    else from_str_radix_16_loop (c :: rest) 0

namespace hex_serde

/-- Models `hex_serde::serialize` (`src/style.rs`): values above `0xFFFFFF`
are a range error; otherwise the value is rendered as `#` followed by six
uppercase hexadecimal digits. -/
def serialize (value : Nat) : Except String String :=
  if value > 0xFFFFFF then .error "hex value cannot exceed 0xFFFFFF"
  else .ok ("#" ++ to_hex_upper_6 value)

/-- Models `hex_serde::deserialize` (`src/style.rs`): the string must start
with `#` (`starts_with('#')` is exactly a first-character test, and the
source then slices off that one-byte character with `&hex_string[1..]`),
and the remainder is parsed by `u32::from_str_radix(_, 16)`; any parse
failure is mapped to the uniform `expected hex literal` error. -/
def deserialize (hex_string : String) : Except String Nat :=
  match hex_string.data with
  | '#' :: rest =>
    (from_str_radix_16 (String.mk rest)).mapError fun _ => "expected hex literal"
  | _ => .error "expected hex literal"

end hex_serde

/-- Component of the `encode_color_codes` test in `src/codec/legacy.rs`:
`text("hello ").with_bold(true).with_color(Green)` with one extra child
`text("world").with_color(Blue)`. -/
def encode_color_codes_component : Component :=
  (((Component.text "hello ").with_bold true).with_color .green).with_extra
    [(Component.text "world").with_color .blue]

/-- Leaf `c` of the traversal example tree of spec §8. -/
def ex_c : Component := Component.text "c"

/-- Leaf `d` of the traversal example tree. -/
def ex_d : Component := Component.text "d"

/-- Leaf `g` of the traversal example tree. -/
def ex_g : Component := Component.text "g"

/-- Leaf `h` of the traversal example tree. -/
def ex_h : Component := Component.text "h"

/-- Node `b{c,d}` of the traversal example tree. -/
def ex_b : Component := Component.mk (.text "b") .BLANK [ex_c, ex_d]

/-- Node `f{g,h}` of the traversal example tree. -/
def ex_f : Component := Component.mk (.text "f") .BLANK [ex_g, ex_h]

/-- Node `e{f{g,h}}` of the traversal example tree. -/
def ex_e : Component := Component.mk (.text "e") .BLANK [ex_f]

/-- Root `a{b{c,d}, e{f{g,h}}}` of the traversal example tree. -/
def ex_a : Component := Component.mk (.text "a") .BLANK [ex_b, ex_e]

/-- Translation node with one argument `text("x")` and one extra child
`text("y")`, used to exhibit the relative order of translation arguments
and children in depth-first traversal. -/
def translate_order_root : Component :=
  Component.mk (.translation "k" [Component.text "x"]) .BLANK [Component.text "y"]

/-- Modelled from the spec: a hexadecimal digit character as accepted by
`char::to_digit(16)` (decimal digits and letters of either case). -/
def is_hex_digit_char (c : Char) : Prop :=
  ('0' ≤ c ∧ c ≤ '9') ∨ ('a' ≤ c ∧ c ≤ 'f') ∨ ('A' ≤ c ∧ c ≤ 'F')

instance (c : Char) : Decidable (is_hex_digit_char c) := by
  unfold is_hex_digit_char; infer_instance

/-- Modelled from the spec: an uppercase hexadecimal digit character, the
alphabet of `{:06X}` formatting. -/
def is_upper_hex_digit (c : Char) : Prop :=
  ('0' ≤ c ∧ c ≤ '9') ∨ ('A' ≤ c ∧ c ≤ 'F')

instance (c : Char) : Decidable (is_upper_hex_digit c) := by
  unfold is_upper_hex_digit; infer_instance

/-- Base-16 accumulation of a digit list on top of a starting accumulator
(unrecognized characters count as zero; they are excluded separately). -/
def hex_fold (acc : Nat) (ds : List Char) : Nat :=
  ds.foldl (fun a c => a * 16 + (hex_digit_value c).getD 0) acc

/-- Numeric value denoted by a list of hexadecimal digit characters. -/
def hex_digits_value (ds : List Char) : Nat := hex_fold 0 ds

/-- Modelled from the spec (amended): the strings accepted by the hex color
decoder — a `#`, an optional `+` sign, then one or more hexadecimal digits
of either case denoting a value that fits in a `u32` (the 24-bit bound is
not enforced on decode). -/
def RelaxedHexLiteral (s : String) : Prop :=
  ∃ ds : List Char,
    (s.data = '#' :: ds ∨ s.data = '#' :: '+' :: ds) ∧ ds ≠ [] ∧
      (∀ c ∈ ds, is_hex_digit_char c) ∧ hex_digits_value ds < 2 ^ 32

/-- Helper: the per-field merge equals `Option.or` of overlay over base. -/
theorem merge_field_eq_or (dst src : Option α) : merge_field dst src = src.or dst := by
  cases src <;> rfl

/-- Helper: a style whose `is_blank` check succeeds is the blank style. -/
theorem StyleF.eq_blank_of_is_blank (s : StyleF H) (h : s.is_blank = true) :
    s = StyleF.BLANK := by
  cases s with
  | mk bold italic underlined strikethrough obfuscated font color insertion ce he =>
    simp only [StyleF.is_blank, Bool.and_eq_true, Option.isNone_iff_eq_none] at h
    obtain ⟨⟨⟨⟨⟨⟨⟨⟨⟨h1, h2⟩, h3⟩, h4⟩, h5⟩, h6⟩, h7⟩, h8⟩, h9⟩, h10⟩ := h
    subst h1 h2 h3 h4 h5 h6 h7 h8 h9 h10
    rfl

/-- C1: for all styles `a`, `b`, merging `b` into `a` (`Style::merge` with
`b` as the overlay) leaves each of the ten fields equal to `b`'s value when
`b` sets it (`Option.or` of `b`'s field over `a`'s takes `b`'s value when
it is `some`) and equal to `a`'s prior value when `b` leaves it unset; and
merging two default (blank) styles yields a style for which `is_blank`
returns `true`. -/
theorem style_merge_overrides (a b : Style) :
    (a.merge b).bold = b.bold.or a.bold ∧
    (a.merge b).italic = b.italic.or a.italic ∧
    (a.merge b).underlined = b.underlined.or a.underlined ∧
    (a.merge b).strikethrough = b.strikethrough.or a.strikethrough ∧
    (a.merge b).obfuscated = b.obfuscated.or a.obfuscated ∧
    (a.merge b).font = b.font.or a.font ∧
    (a.merge b).color = b.color.or a.color ∧
    (a.merge b).insertion = b.insertion.or a.insertion ∧
    (a.merge b).click_event = b.click_event.or a.click_event ∧
    (a.merge b).hover_event = b.hover_event.or a.hover_event ∧
    (StyleF.merge StyleF.BLANK StyleF.BLANK : Style).is_blank = true :=
  ⟨merge_field_eq_or a.bold b.bold, merge_field_eq_or a.italic b.italic,
    merge_field_eq_or a.underlined b.underlined,
    merge_field_eq_or a.strikethrough b.strikethrough,
    merge_field_eq_or a.obfuscated b.obfuscated, merge_field_eq_or a.font b.font,
    merge_field_eq_or a.color b.color, merge_field_eq_or a.insertion b.insertion,
    merge_field_eq_or a.click_event b.click_event,
    merge_field_eq_or a.hover_event b.hover_event, rfl⟩

/-- C2: legacy section-sign encoding of `text("hello ")` with bold `true`
and color green, with one extra child `text("world")` colored blue, yields
exactly `"§a§lhello §9§lworld"` — after each child's color code the bold
flag inherited from the ancestor stack is re-emitted. -/
theorem legacy_encode_color_codes :
    legacy_serialize '§' encode_color_codes_component = "§a§lhello §9§lworld" := rfl

/-- C3: legacy decoding is total by construction (`legacy_deserialize` is a
total function on all input strings), and a segment whose leading character
is not a recognized color or format code is kept verbatim — including the
leading character — as literal text content with a blank style. -/
theorem legacy_decode_unrecognized_segment (seg : String) (code : Char)
    (rest : List Char) (hseg : seg.data = code :: rest)
    (hcolor : TextColor.from_color_code code = none)
    (hb : code ≠ BOLD) (hi : code ≠ ITALIC) (hn : code ≠ UNDERLINED)
    (hm : code ≠ STRIKETHROUGH) (hk : code ≠ OBFUSCATED) (hr : code ≠ RESET) :
    legacy_segment_component seg = some (Component.create_flat (.text seg) .BLANK) := by
  have hne : seg.isEmpty = false := by
    rw [Bool.eq_false_iff]
    intro h
    rw [String.isEmpty_iff] at h
    subst h
    simp at hseg
  unfold legacy_segment_component legacy_segment_style
  rw [hseg]
  simp [hcolor, hb, hi, hn, hm, hk, hr, hne]

/-- Witness for C3 at the concrete segment `"zhi"` (leading `'z'` is not a
recognized code). -/
theorem legacy_decode_unrecognized_segment_witness :
    legacy_segment_component "zhi" = some (Component.create_flat (.text "zhi") .BLANK) :=
  legacy_decode_unrecognized_segment "zhi" 'z' ['h', 'i'] rfl rfl (by decide)
    (by decide) (by decide) (by decide) (by decide) (by decide)

/-- C4 (code-bug evidence): legacy decoding of `"§lhello"` does **not**
yield a single bold `Text("hello")` component; the synthetic reset segment
survives as the first child, so flattening leaves an `Empty`-content root
with the `RESETTING` style holding the bold text as its only child. -/
theorem legacy_decode_bold_hello :
    legacy_deserialize '§' "§lhello" =
      Component.mk .empty RESETTING
        [Component.mk (.text "hello") { bold := some true } []] := rfl

/-- C5 (code-bug evidence): legacy decoding of `"a§lb§oc"` produces the
remaining siblings in the order `c`, `b` — `Component::flattened` uses
`swap_remove(0)`, which moves the last child into the first position, so
the decoded children are reordered relative to their order in the input. -/
theorem legacy_decode_sibling_reorder :
    legacy_deserialize '§' "a§lb§oc" =
      Component.mk (.text "a") RESETTING
        [Component.mk (.text "c") { italic := some true } [],
         Component.mk (.text "b") { bold := some true } []] := rfl

/-- C10 (code-bug evidence): the plain-text codec's `serialize` only
appends `shallow_text()`, so a keybind component encodes to the empty
string even though the codec's own documentation (and `Content`'s
`Display`, shown alongside) renders it as `[key.jump]`; `deserialize`
always wraps the input in a text component. -/
theorem plain_serialize_drops_non_text :
    plain_serialize (Component.keybind "key.jump") = "" ∧
    content_to_string (.keybind "key.jump") = "[key.jump]" ∧
    ∀ s : String, plain_deserialize s = Component.text s :=
  ⟨rfl, by simp [content_to_string], fun _ => rfl⟩

/-- Helper: every component counts at least itself. -/
theorem sizeAll_pos (c : Component) : 0 < c.sizeAll := by
  cases c with
  | mk content style extra => cases content <;> simp [Component.sizeAll]

/-- Helper: `sizeAllList` distributes over append. -/
theorem sizeAllList_append (a b : List Component) :
    sizeAllList (a ++ b) = sizeAllList a + sizeAllList b := by
  induction a with
  | nil => simp [sizeAllList]
  | cons c cs ih => simp [sizeAllList, ih]; omega

/-- Helper: a component's total size is one plus the sizes of its
translation arguments and of its children. -/
theorem sizeAll_decompose (c : Component) :
    c.sizeAll = 1 + sizeAllList c.translate_args + sizeAllList c.extra := by
  cases c with
  | mk content style extra =>
    cases content <;>
      simp [Component.sizeAll, Component.translate_args, Component.content,
        Component.extra, sizeAllList]

/-- Helper: unfolding of `dfs_spec_list` on a cons cell. -/
theorem dfs_spec_list_cons (flag : Bool) (c : Component) (cs : List Component) :
    dfs_spec_list flag (c :: cs) = dfs_spec flag c ++ dfs_spec_list flag cs := by
  simp [dfs_spec_list]

/-- Helper: `dfs_spec_list` distributes over append. -/
theorem dfs_spec_list_append (flag : Bool) (a b : List Component) :
    dfs_spec_list flag (a ++ b) = dfs_spec_list flag a ++ dfs_spec_list flag b := by
  induction a with
  | nil => simp [dfs_spec_list]
  | cons c cs ih => simp [dfs_spec_list_cons, ih]

/-- Helper: uniform unfolding of `dfs_spec` — the node, then its children,
then (when requested) its translation arguments. -/
theorem dfs_spec_decompose (flag : Bool) (c : Component) :
    dfs_spec flag c =
      c :: (dfs_spec_list flag c.extra ++
        if flag then dfs_spec_list flag c.translate_args else []) := by
  cases c with
  | mk content style extra =>
    cases content <;>
      cases flag <;>
        simp [dfs_spec, Component.translate_args, Component.content,
          Component.extra, dfs_spec_list]

/-- Helper: with enough fuel (the total size of the queue suffices), the
depth-first flat iterator visits exactly the recursive depth-first
traversal of each queued tree in order. -/
theorem flat_run_dfs (flag : Bool) : ∀ (fuel : Nat) (q : List Component),
    sizeAllList q ≤ fuel →
      flat_run fuel ⟨q, .depthFirst, flag⟩ = dfs_spec_list flag q := by
  intro fuel
  induction fuel with
  | zero =>
    intro q h
    cases q with
    | nil => simp [flat_run, dfs_spec_list]
    | cons c cs =>
      exfalso
      have hpos := sizeAll_pos c
      simp [sizeAllList] at h
      omega
  | succ n ih =>
    intro q h
    cases q with
    | nil => simp [flat_run, flat_next, dfs_spec_list]
    | cons c cs =>
      have hstep : flat_next ⟨c :: cs, .depthFirst, flag⟩ =
          some (c, ⟨c.extra ++ (if flag then c.translate_args else []) ++ cs,
            .depthFirst, flag⟩) := by
        simp [flat_next]
      have hsize : sizeAllList (c.extra ++ (if flag then c.translate_args else []) ++ cs) ≤ n := by
        have hd := sizeAll_decompose c
        have hargs : sizeAllList (if flag then c.translate_args else []) ≤
            sizeAllList c.translate_args := by
          cases flag <;> simp [sizeAllList]
        rw [sizeAllList_append, sizeAllList_append]
        simp [sizeAllList] at h
        omega
      rw [flat_run, hstep]
      show c :: flat_run n ⟨c.extra ++ (if flag then c.translate_args else []) ++ cs,
        .depthFirst, flag⟩ = dfs_spec_list flag (c :: cs)
      rw [ih _ hsize]
      rw [dfs_spec_list_cons, dfs_spec_list_append, dfs_spec_list_append,
        dfs_spec_decompose]
      have hargs2 : dfs_spec_list flag (if flag then c.translate_args else []) =
          if flag then dfs_spec_list flag c.translate_args else [] := by
        cases flag <;> simp [dfs_spec_list]
      rw [hargs2]
      simp

/-- C6: for every component tree, depth-first flat traversal visits a node,
then recursively each of its children left-to-right, before any sibling
(the recursive specification `dfs_spec` with translation arguments
excluded); on the example tree `a{b{c,d}, e{f{g,h}}}` depth-first visits
exactly `[a,b,c,d,e,f,g,h]` and breadth-first visits exactly
`[a,b,e,c,d,f,g,h]`. -/
theorem flat_traversal_orders :
    (∀ c : Component, c.iter_list .depthFirst false = dfs_spec false c) ∧
    ex_a.iter_list .depthFirst false = [ex_a, ex_b, ex_c, ex_d, ex_e, ex_f, ex_g, ex_h] ∧
    ex_a.iter_list .breadthFirst false = [ex_a, ex_b, ex_e, ex_c, ex_d, ex_f, ex_g, ex_h] := by
  refine ⟨fun c => ?_, rfl, rfl⟩
  have h := flat_run_dfs false c.sizeAll [c] (by simp [sizeAllList])
  rw [Component.iter_list, h]
  simp [dfs_spec_list]

/-- C7 is refuted as stated: depth-first traversal with translation
arguments enabled visits the extra child `text("y")` **before** the
translation argument `text("x")` — the arguments are not ordered before the
`extra` children in depth-first order. -/
theorem translate_args_not_before_extra_dfs :
    (translate_order_root.iter_list .depthFirst true).map Component.shallow_text =
      [none, some "y", some "x"] ∧
    ((translate_order_root.iter_list .depthFirst true).map Component.shallow_text ≠
      [none, some "x", some "y"]) :=
  ⟨rfl, by decide⟩

/-- C7 (amended): with the modifier enabled, depth-first traversal follows
`dfs_spec true`, which places a node's `extra` children (and their
subtrees) before its translation arguments; in breadth-first order one
step enqueues the translation arguments immediately before the `extra`
children at the back of the queue; with the modifier disabled, a step
never enqueues translation arguments in either order. -/
theorem translate_args_placement :
    (∀ c : Component, c.iter_list .depthFirst true = dfs_spec true c) ∧
    (∀ (item : Component) (rest : List Component),
      flat_next ⟨item :: rest, .breadthFirst, true⟩ =
        some (item, ⟨rest ++ item.translate_args ++ item.extra, .breadthFirst, true⟩)) ∧
    (∀ (item : Component) (rest : List Component),
      flat_next ⟨item :: rest, .breadthFirst, false⟩ =
        some (item, ⟨rest ++ item.extra, .breadthFirst, false⟩)) ∧
    (∀ (item : Component) (rest : List Component),
      flat_next ⟨item :: rest, .depthFirst, false⟩ =
        some (item, ⟨item.extra ++ rest, .depthFirst, false⟩)) := by
  refine ⟨fun c => ?_, fun item rest => ?_, fun item rest => ?_, fun item rest => ?_⟩
  · have h := flat_run_dfs true c.sizeAll [c] (by simp [sizeAllList])
    rw [Component.iter_list, h]
    simp [dfs_spec_list]
  · simp [flat_next]
  · simp [flat_next]
  · simp [flat_next]

/-- C8 (code-bug evidence): the structured-codec round trip fails on the
representable component `translate("k", [])` — encoding succeeds but omits
the `with` field (`skip_serializing_if = "Vec::is_empty"`), and decoding
the resulting object fails because `with` has no serde default, so
`decode(encode(c))` is not `c`; the compaction halves of the claim do
hold: a blank-style childless text component encodes to a bare string and
a bare string decodes back to that text component. -/
theorem serial_round_trip_bug :
    serial_encode (Component.translate "k" []) =
      .ok (.obj .BLANK (.translation "k" none) []) ∧
    serial_decode (.obj .BLANK (.translation "k" none) []) =
      .error "missing field with" ∧
    (∀ s : String, serial_encode (Component.text s) = .ok (.str s)) ∧
    (∀ s : String, serial_decode (.str s) = .ok (Component.text s)) := by
  refine ⟨?_, ?_, fun s => ?_, fun s => rfl⟩
  · rfl
  · rfl
  · rfl

/-- Helper: `char::to_digit(16)` succeeds exactly on hexadecimal digit
characters. -/
theorem hex_digit_value_isSome_iff (c : Char) :
    (hex_digit_value c).isSome = true ↔ is_hex_digit_char c := by
  unfold hex_digit_value is_hex_digit_char
  split_ifs with h1 h2 h3 <;> simp_all

/-- Helper: base-16 accumulation never decreases the accumulator. -/
theorem hex_fold_le (ds : List Char) : ∀ acc : Nat, acc ≤ hex_fold acc ds := by
  induction ds with
  | nil => intro acc; simp [hex_fold]
  | cons c cs ih =>
    intro acc
    have h1 := ih (acc * 16 + (hex_digit_value c).getD 0)
    have h2 : acc ≤ acc * 16 + (hex_digit_value c).getD 0 := by omega
    have hf : hex_fold acc (c :: cs) =
        hex_fold (acc * 16 + (hex_digit_value c).getD 0) cs := rfl
    omega

/-- Helper: the checked multiply-add loop of `from_str_radix` succeeds
exactly when every character is a hexadecimal digit and the accumulated
value fits in a `u32`. -/
theorem from_str_radix_16_loop_isOk_iff (ds : List Char) : ∀ acc : Nat, acc < 2 ^ 32 →
    ((from_str_radix_16_loop ds acc).isOk = true ↔
      ((∀ c ∈ ds, is_hex_digit_char c) ∧ hex_fold acc ds < 2 ^ 32)) := by
  induction ds with
  | nil =>
    intro acc hacc
    refine ⟨fun _ => ⟨by simp, ?_⟩, fun _ => rfl⟩
    simpa [hex_fold] using hacc
  | cons c cs ih =>
    intro acc hacc
    cases hv : hex_digit_value c with
    | none =>
      have hnot : ¬ is_hex_digit_char c := by
        rw [← hex_digit_value_isSome_iff, hv]
        simp
      have hstep : from_str_radix_16_loop (c :: cs) acc =
          .error "invalid digit found in string" := by
        rw [from_str_radix_16_loop, hv]
      rw [hstep]
      simp [hnot, Except.isOk, Except.toBool]
    | some d =>
      have hyes : is_hex_digit_char c := by
        rw [← hex_digit_value_isSome_iff, hv]
        rfl
      have hf : hex_fold acc (c :: cs) = hex_fold (acc * 16 + d) cs := by
        show hex_fold (acc * 16 + (hex_digit_value c).getD 0) cs = _
        rw [hv]
        rfl
      have hstep : from_str_radix_16_loop (c :: cs) acc =
          if acc * 16 + d < 2 ^ 32 then from_str_radix_16_loop cs (acc * 16 + d)
          else .error "number too large to fit in target type" := by
        rw [from_str_radix_16_loop, hv]
      by_cases hov : acc * 16 + d < 2 ^ 32
      · rw [hstep, if_pos hov, ih _ hov, hf]
        simp [hyes]
      · rw [hstep, if_neg hov]
        have hge := hex_fold_le cs (acc * 16 + d)
        constructor
        · intro h
          simp [Except.isOk, Except.toBool] at h
        · intro ⟨_, hlt⟩
          rw [hf] at hlt
          omega

/-- Helper: `mapError` does not change whether an `Except` is `ok`. -/
theorem isOk_mapError (e : Except ε α) (f : ε → δ) :
    (e.mapError f).isOk = e.isOk := by
  cases e <;> rfl

/-- Helper: `u32::from_str_radix(_, 16)` succeeds exactly on an optional
`+` sign followed by a nonempty run of hexadecimal digits whose value fits
in a `u32`. -/
theorem from_str_radix_16_isOk_iff (s : String) :
    (from_str_radix_16 s).isOk = true ↔
      ∃ ds : List Char, (s.data = ds ∨ s.data = '+' :: ds) ∧ ds ≠ [] ∧
        (∀ c ∈ ds, is_hex_digit_char c) ∧ hex_digits_value ds < 2 ^ 32 := by
  have hpos : (0 : Nat) < 2 ^ 32 := by norm_num
  cases hdata : s.data with
  | nil =>
    constructor
    · intro h
      rw [show from_str_radix_16 s = .error "cannot parse integer from empty string" by
        unfold from_str_radix_16
        rw [hdata]] at h
      simp [Except.isOk, Except.toBool] at h
    · intro ⟨ds, hds, hne, hhex, hval⟩
      rcases hds with h | h
      · exact absurd h.symm hne
      · exact absurd h (by simp)
  | cons c rest =>
    by_cases hc : c = '+'
    · subst hc
      cases rest with
      | nil =>
        constructor
        · intro h
          rw [show from_str_radix_16 s = .error "invalid digit found in string" by
            unfold from_str_radix_16
            rw [hdata]
            simp] at h
          simp [Except.isOk, Except.toBool] at h
        · intro ⟨ds, hds, hne, hhex, hval⟩
          rcases hds with h | h
          · subst h
            have : is_hex_digit_char '+' := hhex '+' (by simp)
            exact absurd this (by decide)
          · have : ds = [] := by
              injection h with _ h2
              exact h2.symm
            exact absurd this hne
      | cons c2 rest2 =>
        rw [show from_str_radix_16 s = from_str_radix_16_loop (c2 :: rest2) 0 by
          unfold from_str_radix_16
          rw [hdata]
          simp]
        rw [from_str_radix_16_loop_isOk_iff _ 0 hpos]
        constructor
        · intro ⟨hhex, hval⟩
          exact ⟨c2 :: rest2, Or.inr rfl, by simp, hhex, hval⟩
        · intro ⟨ds, hds, hne, hhex, hval⟩
          rcases hds with h | h
          · subst h
            have : is_hex_digit_char '+' := hhex '+' (by simp)
            exact absurd this (by decide)
          · injection h with _ h2
            subst h2
            exact ⟨hhex, hval⟩
    · rw [show from_str_radix_16 s = from_str_radix_16_loop (c :: rest) 0 by
        unfold from_str_radix_16
        rw [hdata]
        simp [hc]]
      rw [from_str_radix_16_loop_isOk_iff _ 0 hpos]
      constructor
      · intro ⟨hhex, hval⟩
        exact ⟨c :: rest, Or.inl rfl, by simp, hhex, hval⟩
      · intro ⟨ds, hds, hne, hhex, hval⟩
        rcases hds with h | h
        · subst h
          exact ⟨hhex, hval⟩
        · injection h with h1 _
          exact absurd h1 hc

/-- Helper: the hex color decoder succeeds exactly on relaxed hex literals
(a `#`, an optional `+`, then hexadecimal digits of a `u32` value). -/
theorem hex_deserialize_isOk_iff (s : String) :
    (hex_serde.deserialize s).isOk = true ↔ RelaxedHexLiteral s := by
  cases hdata : s.data with
  | nil =>
    rw [show hex_serde.deserialize s = .error "expected hex literal" by
      unfold hex_serde.deserialize
      rw [hdata]]
    constructor
    · intro h
      simp [Except.isOk, Except.toBool] at h
    · intro ⟨ds, hds, hne, hhex, hval⟩
      rw [hdata] at hds
      rcases hds with h | h <;> exact absurd h (by simp)
  | cons c rest =>
    by_cases hc : c = '#'
    · subst hc
      rw [show hex_serde.deserialize s =
          (from_str_radix_16 (String.mk rest)).mapError fun _ => "expected hex literal" by
        unfold hex_serde.deserialize
        rw [hdata]
        simp]
      rw [isOk_mapError, from_str_radix_16_isOk_iff]
      unfold RelaxedHexLiteral
      rw [hdata]
      simp [show (String.mk rest).data = rest from rfl]
    · rw [show hex_serde.deserialize s = .error "expected hex literal" by
        unfold hex_serde.deserialize
        rw [hdata]
        simp [hc]]
      constructor
      · intro h
        simp [Except.isOk, Except.toBool] at h
      · intro hrel
        obtain ⟨ds, hds, hne, hhex, hval⟩ := hrel
        rw [hdata] at hds
        rcases hds with h | h
        · injection h with h1 h2
          exact absurd h1 hc
        · injection h with h1 h2
          exact absurd h1 hc

/-- Helper: every output digit of `{:06X}` is an uppercase hex digit. -/
theorem hex_digit_upper_is_upper (n : Nat) (h : n < 16) :
    is_upper_hex_digit (hex_digit_upper n) := by
  have hall : ∀ m : Nat, m < 16 → is_upper_hex_digit (hex_digit_upper m) := by decide
  exact hall n h

/-- C9 (amended): encoding a value of at most `0xFFFFFF` succeeds and
yields a string of exactly seven characters — a leading `#` followed by six
uppercase hexadecimal digits (`0xAABBCC` encodes to `"#AABBCC"`); encoding
a larger value fails with the range error; decoding `"#AABBCC"` yields
`0xAABBCC`; and decoding succeeds exactly on a `#` followed by an optional
`+` sign and hexadecimal digits of either case denoting a value that fits
in a `u32` — the 24-bit bound is **not** enforced on decode. -/
theorem hex_serde_spec :
    (∀ v : Nat, v ≤ 0xFFFFFF →
      ∃ out : String, hex_serde.serialize v = .ok out ∧ out.data.length = 7 ∧
        out.data.head? = some '#' ∧ ∀ c ∈ out.data.tail, is_upper_hex_digit c) ∧
    hex_serde.serialize 0xAABBCC = .ok "#AABBCC" ∧
    (∀ v : Nat, 0xFFFFFF < v →
      hex_serde.serialize v = .error "hex value cannot exceed 0xFFFFFF") ∧
    hex_serde.deserialize "#AABBCC" = .ok 0xAABBCC ∧
    (∀ s : String, (hex_serde.deserialize s).isOk = true ↔ RelaxedHexLiteral s) := by
  refine ⟨fun v hv => ?_, rfl, fun v hv => ?_, rfl, hex_deserialize_isOk_iff⟩
  · refine ⟨"#" ++ to_hex_upper_6 v, ?_, ?_, ?_, ?_⟩
    · rw [show hex_serde.serialize v = .ok ("#" ++ to_hex_upper_6 v) by
        unfold hex_serde.serialize
        rw [if_neg (by omega)]]
    · rfl
    · rfl
    · have hdata : ("#" ++ to_hex_upper_6 v).data.tail =
          [5, 4, 3, 2, 1, 0].map fun k => hex_digit_upper (v / 16 ^ k % 16) := rfl
      rw [hdata]
      intro c hc
      rw [List.mem_map] at hc
      obtain ⟨k, _, hk⟩ := hc
      rw [← hk]
      exact hex_digit_upper_is_upper _ (Nat.mod_lt _ (by norm_num))
  · unfold hex_serde.serialize
    rw [if_pos (by omega)]

/-- Witness for C9 at the concrete inputs `0xAABBCC` (in range) and
`0x1000000` (out of range). -/
theorem hex_serde_spec_witness :
    (∃ out : String, hex_serde.serialize 0xAABBCC = .ok out ∧ out.data.length = 7 ∧
      out.data.head? = some '#' ∧ ∀ c ∈ out.data.tail, is_upper_hex_digit c) ∧
    hex_serde.serialize 0x1000000 = .error "hex value cannot exceed 0xFFFFFF" :=
  ⟨hex_serde_spec.1 0xAABBCC (by norm_num),
    hex_serde_spec.2.2.1 0x1000000 (by norm_num)⟩

/-- C9 is refuted as stated: `"#1000000"` is not a six-digit 24-bit hex
literal (its value exceeds `0xFFFFFF`), yet decoding succeeds — decode does
not enforce the 24-bit bound. -/
theorem hex_decode_accepts_over_24_bit :
    hex_serde.deserialize "#1000000" = .ok 16777216 ∧ 0xFFFFFF < 16777216 :=
  ⟨rfl, by norm_num⟩
